import Mathlib

/-!
Verification of the retrieval orchestration and escalation engine of a
knowledge-graph question answering system (graph-RAG with web-search
escalation).  The Python source is shallowly embedded: external
collaborators (the language model, the DuckDuckGo search client, the graph
store) are passed in as explicit oracle data, fallible calls return
`Except`, and the per-query pipeline becomes pure functions over that data.
-/

namespace ScratchKG

deriving instance DecidableEq for Except

/-- Case-insensitive-ready substring test at the character-list level,
matching Python `in` / Cypher `CONTAINS` semantics (empty needle matches). -/
def containsSubstr (s t : String) : Bool :=
  decide (t.data <:+: s.data)

/-- Lower-casing (`str.lower()` / Cypher `toLower`) at the character-list
level; as with `\w`, the ASCII core of Unicode case folding. -/
def lowerStr (s : String) : String :=
  ⟨s.data.map Char.toLower⟩

/-- An `Entity` node of the graph store: `name`, `description`, `type`
(the `type` property may be absent, as in Neo4j a property can be null). -/
structure Entity where
  name : String
  description : String
  etype : Option String
deriving DecidableEq, Repr

/-- An outgoing relation record as returned by the one-hop Cypher lookup:
`type(r) as rel_type, b.name as target, b.description as target_desc,
b.type as target_type`. -/
structure Relation where
  rel_type : String
  target : String
  target_desc : String
  target_type : Option String
deriving DecidableEq, Repr

/-- The graph store: its entities, and the outgoing relations as an
ordered association list from source-entity name to relation records. -/
structure GraphStore where
  entities : List Entity
  rels : List (String × Relation)
deriving Repr

/-- Per-keyword score contribution, embedding the `CASE` expression of the
Cypher query in `_get_relevant_context`:
exact case-insensitive name match 10, name contains 5, description
contains 2, else 0. -/
def keywordScore (e : Entity) (term : String) : Nat :=
  if lowerStr e.name = lowerStr term then 10
  else if containsSubstr (lowerStr e.name) (lowerStr term) then 5
  else if containsSubstr (lowerStr e.description) (lowerStr term) then 2
  else 0

/-- The `reduce(s=0, term IN $terms | s + CASE ... END)` accumulator of the
Cypher query: fold the per-keyword contributions over the supplied terms. -/
def entityScore (e : Entity) (terms : List String) : Nat :=
  terms.foldl (fun s t => s + keywordScore e t) 0

/-- The ranked lookup of `_get_relevant_context`:
score every entity, keep `score > 0`, `ORDER BY score DESC`, `LIMIT 5`.
Neo4j leaves ties unordered; we fix a stable insertion sort, which is one
admissible ordering. -/
def topEntities (g : GraphStore) (terms : List String) : List (Entity × Nat) :=
  let scored := g.entities.map (fun e => (e, entityScore e terms))
  let positive := scored.filter (fun p => 0 < p.2)
  (List.insertionSort (fun a b : Entity × Nat => b.2 ≤ a.2) positive).take 5

/-- Spec-side restatement of the score (claim C1 wording): the sum over the
keywords of a per-keyword contribution of 10 for an exact case-insensitive
name match, else 5 if the name contains the keyword, else 2 if the
description contains it, else 0. -/
def specScore (e : Entity) (terms : List String) : Nat :=
  (terms.map (fun t =>
    if lowerStr e.name = lowerStr t then 10
    else if containsSubstr (lowerStr e.name) (lowerStr t) then 5
    else if containsSubstr (lowerStr e.description) (lowerStr t) then 2
    else 0)).sum

instance : IsTotal (Entity × Nat) (fun a b => b.2 ≤ a.2) :=
  ⟨fun a b => le_total b.2 a.2⟩

instance : IsTrans (Entity × Nat) (fun a b => b.2 ≤ a.2) :=
  ⟨fun _ _ _ h1 h2 => le_trans h2 h1⟩

/-! ## Intent extraction (`_extract_search_intents`) -/

/-- Python word character for `re.sub` with `[^\w\s]`: alphanumeric or
underscore (the ASCII core of the `\w` class; exotic Unicode word
characters are abstracted away, no claim depends on them). -/
def isWordChar (c : Char) : Bool :=
  c.isAlphanum || c = '_'

/-- Maximal runs of non-whitespace characters, i.e. Python
`str.split()` with no argument at the character level. -/
def wordsAux : List Char → List Char → List (List Char)
  | [], cur => if cur.isEmpty then [] else [cur.reverse]
  | c :: cs, cur =>
    if c.isWhitespace then
      if cur.isEmpty then wordsAux cs [] else cur.reverse :: wordsAux cs []
    else wordsAux cs (c :: cur)

/-- Python `s.split()`: whitespace-delimited tokens, empties dropped. -/
def pySplit (s : String) : List String :=
  (wordsAux s.data []).map fun l => ⟨l⟩

/-- The deterministic fallback extractor of `_extract_search_intents`:
`clean = re.sub(r'[^\w\s]', '', query)` then
`[w for w in clean.split() if len(w) > 3]`. -/
def fallbackExtract (query : String) : List String :=
  let clean : String := ⟨query.data.filter (fun c => isWordChar c || c.isWhitespace)⟩
  (pySplit clean).filter (fun w => 3 < w.length)

/-- Defensive re-splitting of the model keywords: a keyword containing a
space character is replaced by its whitespace-split parts
(`if " " in k: final_keywords.extend(k.split()) else: append(k)`). -/
def resplitKeywords (keywords : List String) : List String :=
  keywords.foldl (fun acc k =>
    if containsSubstr k " " then acc ++ pySplit k else acc ++ [k]) []

/-- `_extract_search_intents`: the language-model call (and the JSON
parsing of its reply) is the oracle; on success the keyword list is
re-split and deduplicated (`list(set(...))`, whose arbitrary iteration
order is fixed here as first-occurrence order), and any failure is caught
and recovered by the deterministic fallback. -/
def extractSearchIntents (oracle : Except String (List String))
    (query : String) : List String :=
  match oracle with
  | .ok keywords => (resplitKeywords keywords).dedup
  | .error _ => fallbackExtract query

/-! ## Context-bundle construction (`_get_relevant_context`) -/

/-- A display node of the visualization structure:
`{"id": name, "label": name, "title": desc, "group": type or "Entity"}`. -/
structure DisplayNode where
  id : String
  label : String
  title : String
  group : String
deriving DecidableEq, Repr

/-- A display edge: `{"source": name, "target": target, "label": rel}`. -/
structure DisplayEdge where
  source : String
  target : String
  label : String
deriving DecidableEq, Repr

/-- Python's `x or "Entity"` on an optional string property: `None` and
the empty string are falsy. -/
def orEntity : Option String → String
  | none => "Entity"
  | some s => if s = "" then "Entity" else s

/-- The node-map (`graph_nodes`) as an insertion-ordered dictionary. -/
abbrev NodeMap := List (String × DisplayNode)

/-- Keys of the node map. -/
def keysOf (d : NodeMap) : List String := d.map (·.1)

/-- Python dict assignment `d[k] = v`: overwrite in place if the key is
present, else append. -/
def dictInsert (d : NodeMap) (k : String) (v : DisplayNode) : NodeMap :=
  if k ∈ keysOf d then
    d.map (fun p => if p.1 = k then (k, v) else p)
  else d ++ [(k, v)]

/-- The guarded registration `if target_name not in graph_nodes: ...`:
add-if-absent. -/
def dictAddIfAbsent (d : NodeMap) (k : String) (v : DisplayNode) : NodeMap :=
  if k ∈ keysOf d then d else d ++ [(k, v)]

/-- The one-hop relation lookup for an entity name: outgoing relations in
store order, `LIMIT 5`. -/
def relsFor (g : GraphStore) (name : String) : List Relation :=
  ((g.rels.filter (fun p => p.1 = name)).map (·.2)).take 5

/-- The visualization structure part of the ContextBundle. -/
structure GraphData where
  nodes : NodeMap
  edges : List DisplayEdge
deriving DecidableEq, Repr

def emptyGraph : GraphData := ⟨[], []⟩

/-- Accumulator state of the traversal: context lines, node map, edges. -/
structure BundleAcc where
  lines : List String
  nodes : NodeMap
  edges : List DisplayEdge

/-- Processing of one relation record inside the inner loop of
`_get_relevant_context`: append the context line, register the target
node if absent, append the display edge. -/
def addRelation (srcName : String) (acc : BundleAcc) (r : Relation) : BundleAcc :=
  { lines := acc.lines ++
      ["  - " ++ r.rel_type ++ " -> " ++ r.target ++ " (" ++ r.target_desc ++ ")"]
    nodes := dictAddIfAbsent acc.nodes r.target
      { id := r.target, label := r.target, title := r.target_desc,
        group := orEntity r.target_type }
    edges := acc.edges ++
      [{ source := srcName, target := r.target, label := r.rel_type }] }

/-- Processing of one ranked entity: append its context line, register its
display node, then fold its (≤ 5) outgoing relations. -/
def addEntity (g : GraphStore) (acc : BundleAcc) (e : Entity) : BundleAcc :=
  let acc1 : BundleAcc :=
    { lines := acc.lines ++ ["ENTITY: " ++ e.name ++ " (" ++ e.description ++ ")"]
      nodes := dictInsert acc.nodes e.name
        { id := e.name, label := e.name, title := e.description,
          group := orEntity e.etype }
      edges := acc.edges }
  (relsFor g e.name).foldl (addRelation e.name) acc1

/-- The ContextBundle display invariant: node keys are deduplicated and
every accumulated edge has both endpoints registered in the node map. -/
def BundleInv (acc : BundleAcc) : Prop :=
  (keysOf acc.nodes).Nodup ∧
  ∀ ed ∈ acc.edges, ed.source ∈ keysOf acc.nodes ∧ ed.target ∈ keysOf acc.nodes

/-- `_get_relevant_context` given the already-extracted search terms:
rank the entities, then traverse them accumulating context text, node map
and edge list. -/
def getRelevantContext (g : GraphStore) (terms : List String) :
    String × GraphData :=
  let acc := (topEntities g terms).foldl (fun a p => addEntity g a p.1)
    ⟨[], [], []⟩
  (String.intercalate "\n" acc.lines, ⟨acc.nodes, acc.edges⟩)

/-! ## Web search collaborator (`WebSearch.search`) -/

/-- One raw result record from the DuckDuckGo client; each field may be
absent (Python `r.get(key, default)`). -/
structure SearchResult where
  title : Option String
  body : Option String
  href : Option String
deriving DecidableEq, Repr

/-- The formatted block for the i-th raw result. -/
def resultLines (i : Nat) (r : SearchResult) : List String :=
  ["Result " ++ toString (i + 1) ++ ":",
   "Title: " ++ r.title.getD "No Title",
   "Content: " ++ r.body.getD "",
   "Source: " ++ r.href.getD "",
   "---"]

/-- The summary lines accumulated by `WebSearch.search` over
`enumerate(results)`. -/
def summaryParts (results : List SearchResult) : List String :=
  (results.enum.map (fun p => resultLines p.1 p.2)).flatten

/-- `WebSearch.search`: the DuckDuckGo transport is the oracle `ddgs`; the
whole body sits in `try ... except Exception: return ""`, so a transport
failure yields `.ok ""`, exactly like an empty result list.  The return
type is `Except` so that "never raises" is a provable statement, not a
typing artifact. -/
def webSearchSearch (ddgs : String → Except String (List SearchResult))
    (q : String) : Except String String :=
  match ddgs q with
  | .error _ => .ok ""
  | .ok results =>
    .ok (if results.isEmpty then "" else String.intercalate "\n" (summaryParts results))

/-- The value `WebSearch.search` actually returns (it is total). -/
def webSearchValue (ddgs : String → Except String (List SearchResult))
    (q : String) : String :=
  match ddgs q with
  | .error _ => ""
  | .ok results =>
    if results.isEmpty then "" else String.intercalate "\n" (summaryParts results)

/-! ## Tool-calling answerer (`_run_tool_search`) -/

inductive Role where
  | system
  | user
  | assistant
  | tool
deriving DecidableEq, Repr

/-- One capability invocation in a model response: call identifier, the
invoked function name, and the parsed `query` argument. -/
structure ToolCall where
  id : String
  fname : String
  query : String
deriving DecidableEq, Repr

/-- A language-model completion result: the text content and the list of
capability invocations (empty when the model answered directly). -/
structure LLMResponse where
  content : String
  tool_calls : List ToolCall
deriving DecidableEq, Repr

/-- A conversation message.  `tool_call_id` and `name` are only set on
tool-result messages; `tool_calls` only on assistant messages. -/
structure Message where
  role : Role
  content : String
  tool_call_id : Option String := none
  name : Option String := none
  tool_calls : List ToolCall := []
deriving DecidableEq, Repr

/-- The assistant message appended for a tool-calling model response
(`messages.append(msg)`). -/
def assistantMsg (r : LLMResponse) : Message :=
  { role := .assistant, content := r.content, tool_calls := r.tool_calls }

/-- The language-model completion service as consumed responses in call
order; each call pops the head, and an exhausted oracle behaves as a
raising call. -/
def takeLLM : List (Except String LLMResponse) →
    Except String LLMResponse × List (Except String LLMResponse)
  | [] => (.error "no response", [])
  | r :: rest => (r, rest)

/-- The content of one tool-result message: the search summary,
`"No results found."` for a falsy summary, or the inline error text from
the `except` branch around the web-search call. -/
def toolContent (ddgs : String → Except String (List SearchResult))
    (q : String) : String :=
  match webSearchSearch ddgs q with
  | .ok s => if s = "" then "No results found." else s
  | .error e => "Error performing search: " ++ e

/-- The tool-result message appended for one invocation, tagged with the
originating call identifier. -/
def toolResultMsg (tc : ToolCall) (content : String) : Message :=
  { role := .tool, content := content, tool_call_id := some tc.id,
    name := some "web_search" }

/-- The `for tool_call in msg.tool_calls` loop: invocations of
`web_search` each append one tool-result message; an invocation of any
other name appends nothing. -/
def execToolCalls (ddgs : String → Except String (List SearchResult))
    (msgs : List Message) (tcs : List ToolCall) : List Message :=
  tcs.foldl (fun ms tc =>
    if tc.fname = "web_search" then
      ms ++ [toolResultMsg tc (toolContent ddgs tc.query)]
    else ms) msgs

/-- Result of `_run_tool_search`: answer text, provenance string, and the
conversation as mutated in place. -/
structure ToolSearchOut where
  text : String
  source : String
  messages : List Message
deriving DecidableEq, Repr

/-- `_run_tool_search`: first completion; if it carries tool calls, append
the assistant message and the tool results and run the follow-up
completion (provenance `"Web Search"`), else return the text verbatim
(provenance `"AI Knowledge"`).  Failures of either completion call
propagate (this helper has no try/except of its own). -/
def runToolSearch (llm : List (Except String LLMResponse))
    (ddgs : String → Except String (List SearchResult))
    (messages : List Message) :
    Except String ToolSearchOut × List (Except String LLMResponse) :=
  match takeLLM llm with
  | (.error e, rest) => (.error e, rest)
  | (.ok resp, rest) =>
    if resp.tool_calls.isEmpty then
      (.ok ⟨resp.content, "AI Knowledge", messages⟩, rest)
    else
      let msgs := execToolCalls ddgs (messages ++ [assistantMsg resp]) resp.tool_calls
      match takeLLM rest with
      | (.error e, rest2) => (.error e, rest2)
      | (.ok final, rest2) => (.ok ⟨final.content, "Web Search", msgs⟩, rest2)

/-! ## Escalation orchestrator (`GraphQueryEngine.search`) -/

/-- The closed refusal-marker list. -/
def refusalKeywords : List String :=
  ["không tìm thấy", "không có thông tin", "xin lỗi"]

/-- `any(k in text.lower() for k in refusal_keywords)`. -/
def refusalIn (text : String) : Bool :=
  refusalKeywords.any (fun k => containsSubstr (lowerStr text) k)

/-- The orchestrator system prompt (apostrophes of the literal elided;
its value is never inspected by the logic). -/
def sysContent : String :=
  "You are a helpful assistant powered by a Knowledge Graph and Web Search. Answer in Vietnamese."

def sysMsg : Message := { role := .system, content := sysContent }

def userMsg (s : String) : Message := { role := .user, content := s }

/-- The `[GRAPH CONTEXT]` user message of the graph-found branch. -/
def graphContextMsg (context query : String) : Message :=
  userMsg ("[GRAPH CONTEXT]:\n" ++ context ++ "\n\nUSER QUESTION: " ++ query ++
    "\n\nAnswer based on the context. If it is completely irrelevant, you may use the web_search tool.")

/-- `GraphQueryEngine.search`.  Oracles: `extractOr` is the keyword
extraction call outcome, `llm` the successive main completion results,
`ddgs` the web transport.  The `try` of the graph-found branch encloses
the direct completion and both in-branch delegations to
`_run_tool_search`, so any failure there becomes the fixed
`("Lỗi xử lý.", graph_data, "Error")` result; failures in the forced-web
and empty-graph branches are not enclosed and propagate. -/
def searchRun (g : GraphStore) (extractOr : Except String (List String))
    (llm : List (Except String LLMResponse))
    (ddgs : String → Except String (List SearchResult))
    (query : String) (forceWeb : Bool) :
    Except String (String × GraphData × String) :=
  if forceWeb then
    match (runToolSearch llm ddgs
        ([sysMsg] ++ [userMsg ("Please verify this on the web: " ++ query)])).1 with
    | .error e => .error e
    | .ok out => .ok (out.text, emptyGraph, out.source)
  else if !((getRelevantContext g (extractSearchIntents extractOr query)).2).nodes.isEmpty then
    match takeLLM llm with
    | (.error _, _) =>
      .ok ("Lỗi xử lý.", (getRelevantContext g (extractSearchIntents extractOr query)).2, "Error")
    | (.ok msg, rest) =>
      if !msg.tool_calls.isEmpty then
        match (runToolSearch rest ddgs
            ([sysMsg] ++ [graphContextMsg
              (getRelevantContext g (extractSearchIntents extractOr query)).1 query])).1 with
        | .error _ =>
          .ok ("Lỗi xử lý.", (getRelevantContext g (extractSearchIntents extractOr query)).2, "Error")
        | .ok out => .ok (out.text, emptyGraph, out.source)
      else if refusalIn msg.content then
        match (runToolSearch rest ddgs
            (([sysMsg] ++ [graphContextMsg
                (getRelevantContext g (extractSearchIntents extractOr query)).1 query]) ++
              [assistantMsg msg,
               userMsg "The graph didnt have it. Please search the web."])).1 with
        | .error _ =>
          .ok ("Lỗi xử lý.", (getRelevantContext g (extractSearchIntents extractOr query)).2, "Error")
        | .ok out => .ok (out.text, emptyGraph, out.source)
      else
        .ok (msg.content, (getRelevantContext g (extractSearchIntents extractOr query)).2, "GraphRAG")
  else
    match (runToolSearch llm ddgs ([sysMsg] ++
        [userMsg ("I cannot find information in the database. Please search the web for: " ++ query)])).1 with
    | .error e => .error e
    | .ok out => .ok (out.text, (getRelevantContext g (extractSearchIntents extractOr query)).2, out.source)

/-! ## Concrete data for witness instantiations -/

/-- A small concrete graph store used to instantiate proved properties. -/
def gWit : GraphStore :=
  { entities := [⟨"Loop", "repeats blocks", some "Concept"⟩,
                 ⟨"Variable", "stores a value in a loop", none⟩,
                 ⟨"Zed", "nothing here", some ""⟩],
    rels := [("Loop", ⟨"HAS_PART", "Nested Loop", "a loop in a loop", none⟩),
             ("Loop", ⟨"USES", "Loop", "self reference", some "Concept"⟩)] }

/-- A web transport that always fails hard. -/
def ddgsFail : String → Except String (List SearchResult) :=
  fun _ => .error "network down"

/-- A web transport returning one result. -/
def ddgsOne : String → Except String (List SearchResult) :=
  fun _ => .ok [⟨some "T", some "B", some "H"⟩]

/-- A model response invoking the web-search capability once, together
with an invocation of an unrelated capability name. -/
def respW : LLMResponse :=
  ⟨"", [⟨"call1", "web_search", "scratch loop"⟩, ⟨"call2", "other_tool", "x"⟩]⟩

/-- A final plain-text model response. -/
def finalW : LLMResponse := ⟨"web answer", []⟩

/-- The conversation passed to the delegated answerer in the refusal
branch for the concrete witness scenario. -/
def refusalTailMsgs : List Message :=
  ([sysMsg] ++
    [graphContextMsg (getRelevantContext gWit (extractSearchIntents (.ok ["Loop"]) "q")).1 "q"]) ++
  [assistantMsg ⟨"xin lỗi", []⟩,
   userMsg "The graph didnt have it. Please search the web."]

/-! ## Helper lemmas: ranking -/

theorem foldl_add_eq_sum (f : String → Nat) (l : List String) :
    ∀ s : Nat, l.foldl (fun a t => a + f t) s = s + (l.map f).sum := by
  induction l with
  | nil => intro s; simp
  | cons x xs ih => intro s; simp [ih, Nat.add_assoc]

theorem entityScore_eq_specScore (e : Entity) (terms : List String) :
    entityScore e terms = specScore e terms := by
  simpa [entityScore, specScore, keywordScore] using
    foldl_add_eq_sum (keywordScore e) terms 0

theorem topEntities_sorted (g : GraphStore) (terms : List String) :
    (topEntities g terms).Sorted (fun a b => b.2 ≤ a.2) := by
  have h := List.sorted_insertionSort (fun a b : Entity × Nat => b.2 ≤ a.2)
    ((g.entities.map (fun e => (e, entityScore e terms))).filter (fun p => 0 < p.2))
  exact List.Pairwise.sublist (List.take_sublist _ _) h

theorem topEntities_mem (g : GraphStore) (terms : List String)
    (p : Entity × Nat) (hp : p ∈ topEntities g terms) :
    p.1 ∈ g.entities ∧ p.2 = entityScore p.1 terms ∧ 0 < p.2 := by
  have h1 : p ∈ List.insertionSort (fun a b : Entity × Nat => b.2 ≤ a.2)
      ((g.entities.map (fun e => (e, entityScore e terms))).filter (fun p => 0 < p.2)) :=
    List.mem_of_mem_take hp
  have h2 : p ∈ (g.entities.map (fun e => (e, entityScore e terms))).filter
      (fun p => 0 < p.2) :=
    (List.perm_insertionSort _ _).mem_iff.mp h1
  rw [List.mem_filter] at h2
  obtain ⟨hmem, hpos⟩ := h2
  rw [List.mem_map] at hmem
  obtain ⟨e, he, heq⟩ := hmem
  refine ⟨?_, ?_, by simp at hpos; exact hpos⟩
  · rw [← heq]; exact he
  · rw [← heq]

theorem topEntities_length (g : GraphStore) (terms : List String) :
    (topEntities g terms).length ≤ 5 := by
  simp [topEntities]

theorem topEntities_complete (g : GraphStore) (terms : List String)
    (e : Entity) (he : e ∈ g.entities) (hpos : 0 < entityScore e terms)
    (hshort : (topEntities g terms).length < 5) :
    (e, entityScore e terms) ∈ topEntities g terms := by
  set l := List.insertionSort (fun a b : Entity × Nat => b.2 ≤ a.2)
    ((g.entities.map (fun e => (e, entityScore e terms))).filter (fun p => 0 < p.2)) with hl
  have hmem : (e, entityScore e terms) ∈ l := by
    rw [hl, (List.perm_insertionSort _ _).mem_iff, List.mem_filter]
    exact ⟨List.mem_map_of_mem _ he, by simpa using hpos⟩
  have hlen : (topEntities g terms).length = min 5 l.length := by
    simp [topEntities, hl]
  have hllen : l.length < 5 := by
    rcases Nat.lt_or_ge l.length 5 with h | h
    · exact h
    · rw [hlen, Nat.min_eq_left h] at hshort; omega
  have : (topEntities g terms) = l := by
    simp only [topEntities, ← hl]
    exact List.take_of_length_le (Nat.le_of_lt hllen)
  rw [this]; exact hmem

theorem topEntities_top (g : GraphStore) (terms : List String)
    (e : Entity) (he : e ∈ g.entities) (hpos : 0 < entityScore e terms)
    (hout : (e, entityScore e terms) ∉ topEntities g terms) :
    ∀ p ∈ topEntities g terms, entityScore e terms ≤ p.2 := by
  intro p hp
  set l := List.insertionSort (fun a b : Entity × Nat => b.2 ≤ a.2)
    ((g.entities.map (fun e => (e, entityScore e terms))).filter (fun p => 0 < p.2)) with hl
  have hmem : (e, entityScore e terms) ∈ l := by
    rw [hl, (List.perm_insertionSort _ _).mem_iff, List.mem_filter]
    exact ⟨List.mem_map_of_mem _ he, by simpa using hpos⟩
  have htake : (topEntities g terms) = l.take 5 := by
    simp [topEntities, hl]
  have hdrop : (e, entityScore e terms) ∈ l.drop 5 := by
    have hsplit : (e, entityScore e terms) ∈ l.take 5 ++ l.drop 5 := by
      rw [List.take_append_drop 5 l]; exact hmem
    rcases List.mem_append.mp hsplit with h | h
    · exact absurd (htake ▸ h) hout
    · exact h
  have hsorted : l.Sorted (fun a b : Entity × Nat => b.2 ≤ a.2) :=
    hl ▸ List.sorted_insertionSort _ _
  have := hsorted.rel_of_mem_take_of_mem_drop (htake ▸ hp) hdrop
  exact this

/-! ## Helper lemmas: node-map dictionary -/

theorem keysOf_dictInsert (d : NodeMap) (k : String) (v : DisplayNode) :
    keysOf (dictInsert d k v) =
      if k ∈ keysOf d then keysOf d else keysOf d ++ [k] := by
  unfold dictInsert
  split
  · unfold keysOf
    rw [List.map_map]
    apply List.map_congr_left
    intro p _
    by_cases hpk : p.1 = k <;> simp [hpk]
  · simp [keysOf]

theorem keysOf_dictAddIfAbsent (d : NodeMap) (k : String) (v : DisplayNode) :
    keysOf (dictAddIfAbsent d k v) =
      if k ∈ keysOf d then keysOf d else keysOf d ++ [k] := by
  unfold dictAddIfAbsent
  split <;> simp [keysOf]

theorem keys_extend_nodup (ks : List String) (k : String) (h : ks.Nodup) :
    (if k ∈ ks then ks else ks ++ [k]).Nodup := by
  split
  · exact h
  · next hk => simp [List.nodup_append, h, hk]

theorem keys_extend_mem_self (ks : List String) (k : String) :
    k ∈ (if k ∈ ks then ks else ks ++ [k]) := by
  split
  · assumption
  · simp

theorem keys_extend_mem_of (ks : List String) (k a : String) (ha : a ∈ ks) :
    a ∈ (if k ∈ ks then ks else ks ++ [k]) := by
  split
  · exact ha
  · simp [ha]

/-! ## Helper lemmas: bundle invariant -/

theorem addRelation_inv (src : String) (acc : BundleAcc) (r : Relation)
    (h : BundleInv acc) (hsrc : src ∈ keysOf acc.nodes) :
    BundleInv (addRelation src acc r) ∧
      src ∈ keysOf (addRelation src acc r).nodes := by
  obtain ⟨hnd, hed⟩ := h
  have hkeys : keysOf (addRelation src acc r).nodes =
      if r.target ∈ keysOf acc.nodes then keysOf acc.nodes
      else keysOf acc.nodes ++ [r.target] := by
    simp only [addRelation]
    exact keysOf_dictAddIfAbsent _ _ _
  refine ⟨⟨?_, ?_⟩, ?_⟩
  · rw [hkeys]; exact keys_extend_nodup _ _ hnd
  · intro ed hmem
    simp only [addRelation, List.mem_append, List.mem_singleton] at hmem
    rw [hkeys]
    rcases hmem with hold | rfl
    · obtain ⟨h1, h2⟩ := hed ed hold
      exact ⟨keys_extend_mem_of _ _ _ h1, keys_extend_mem_of _ _ _ h2⟩
    · exact ⟨keys_extend_mem_of _ _ _ hsrc, keys_extend_mem_self _ _⟩
  · rw [hkeys]; exact keys_extend_mem_of _ _ _ hsrc

theorem foldRel_inv (src : String) (rs : List Relation) :
    ∀ acc : BundleAcc, BundleInv acc → src ∈ keysOf acc.nodes →
      BundleInv (rs.foldl (addRelation src) acc) := by
  induction rs with
  | nil => intro acc h _; exact h
  | cons r rs ih =>
    intro acc h hsrc
    obtain ⟨h1, h2⟩ := addRelation_inv src acc r h hsrc
    exact ih _ h1 h2

theorem addEntity_inv (g : GraphStore) (acc : BundleAcc) (e : Entity)
    (h : BundleInv acc) : BundleInv (addEntity g acc e) := by
  obtain ⟨hnd, hed⟩ := h
  unfold addEntity
  apply foldRel_inv
  · refine ⟨?_, ?_⟩
    · simp only [keysOf_dictInsert]
      exact keys_extend_nodup _ _ hnd
    · intro ed hmem
      obtain ⟨h1, h2⟩ := hed ed hmem
      simp only [keysOf_dictInsert]
      exact ⟨keys_extend_mem_of _ _ _ h1, keys_extend_mem_of _ _ _ h2⟩
  · simp only [keysOf_dictInsert]
    exact keys_extend_mem_self _ _

theorem foldEntity_inv (g : GraphStore) (l : List (Entity × Nat)) :
    ∀ acc : BundleAcc, BundleInv acc →
      BundleInv (l.foldl (fun a p => addEntity g a p.1) acc) := by
  induction l with
  | nil => intro acc h; exact h
  | cons p l ih => intro acc h; exact ih _ (addEntity_inv g acc p.1 h)

theorem getRelevantContext_inv (g : GraphStore) (terms : List String) :
    BundleInv ⟨[], ((getRelevantContext g terms).2).nodes,
      ((getRelevantContext g terms).2).edges⟩ := by
  have h := foldEntity_inv g (topEntities g terms) ⟨[], [], []⟩
    ⟨List.nodup_nil, by intro ed hmem; cases hmem⟩
  unfold getRelevantContext
  exact ⟨h.1, h.2⟩

/-! ## Claim theorems -/

/-- C1: for every keyword set and candidate entity, the retrieval score is
the sum over the keywords of the per-keyword contribution
(10 exact case-insensitive name match / 5 name contains / 2 description
contains / 0); entities with score ≤ 0 are excluded, the kept entities are
ordered by descending score, at most 5 are kept, every positive-scoring
entity is kept while fewer than 5 are, and any positive-scoring entity
left out scores no more than every kept one. -/
theorem retrieval_scoring_C1 (g : GraphStore) (terms : List String) :
    (∀ p ∈ topEntities g terms,
        p.1 ∈ g.entities ∧ p.2 = specScore p.1 terms ∧ 0 < p.2)
    ∧ (topEntities g terms).Sorted (fun a b => b.2 ≤ a.2)
    ∧ (topEntities g terms).length ≤ 5
    ∧ (∀ e ∈ g.entities, 0 < specScore e terms →
        (topEntities g terms).length < 5 →
        (e, specScore e terms) ∈ topEntities g terms)
    ∧ (∀ e ∈ g.entities, 0 < specScore e terms →
        (e, specScore e terms) ∉ topEntities g terms →
        ∀ p ∈ topEntities g terms, specScore e terms ≤ p.2) := by
  refine ⟨?_, topEntities_sorted g terms, topEntities_length g terms, ?_, ?_⟩
  · intro p hp
    obtain ⟨h1, h2, h3⟩ := topEntities_mem g terms p hp
    exact ⟨h1, by rw [h2, entityScore_eq_specScore], h3⟩
  · intro e he hpos hshort
    rw [← entityScore_eq_specScore] at hpos ⊢
    exact topEntities_complete g terms e he hpos hshort
  · intro e he hpos hout p hp
    rw [← entityScore_eq_specScore] at hpos hout ⊢
    exact topEntities_top g terms e he hpos hout p hp

theorem retrieval_scoring_C1_witness :
    ((⟨⟨"Loop", "repeats blocks", some "Concept"⟩, 10⟩ : Entity × Nat)
        ∈ topEntities gWit ["Loop"])
    ∧ (10 : Nat) = specScore ⟨"Loop", "repeats blocks", some "Concept"⟩ ["Loop"]
    ∧ ((⟨"Variable", "stores a value in a loop", none⟩ : Entity) ∈ gWit.entities)
    ∧ 0 < specScore ⟨"Variable", "stores a value in a loop", none⟩ ["Loop"]
    ∧ (topEntities gWit ["Loop"]).length < 5
    ∧ (⟨⟨"Variable", "stores a value in a loop", none⟩,
          specScore ⟨"Variable", "stores a value in a loop", none⟩ ["Loop"]⟩ : Entity × Nat)
        ∈ topEntities gWit ["Loop"] :=
  ⟨by decide,
   ((retrieval_scoring_C1 gWit ["Loop"]).1
      ⟨⟨"Loop", "repeats blocks", some "Concept"⟩, 10⟩ (by decide)).2.1,
   by decide, by decide, by decide,
   (retrieval_scoring_C1 gWit ["Loop"]).2.2.2.1
      ⟨"Variable", "stores a value in a loop", none⟩ (by decide) (by decide) (by decide)⟩

/-- C9: in every ContextBundle produced by retrieval, each display edge's
source and target names exist in the node map, and the node map holds at
most one entry per name (idempotent registration). -/
theorem bundle_invariant_C9 (g : GraphStore) (terms : List String) :
    (∀ ed ∈ ((getRelevantContext g terms).2).edges,
        ed.source ∈ keysOf ((getRelevantContext g terms).2).nodes ∧
        ed.target ∈ keysOf ((getRelevantContext g terms).2).nodes)
    ∧ (keysOf ((getRelevantContext g terms).2).nodes).Nodup := by
  have h := getRelevantContext_inv g terms
  exact ⟨h.2, h.1⟩

theorem bundle_invariant_C9_witness :
    ((⟨"Loop", "Loop", "USES"⟩ : DisplayEdge)
        ∈ ((getRelevantContext gWit ["Loop"]).2).edges)
    ∧ "Loop" ∈ keysOf ((getRelevantContext gWit ["Loop"]).2).nodes :=
  ⟨by decide,
   ((bundle_invariant_C9 gWit ["Loop"]).1 ⟨"Loop", "Loop", "USES"⟩ (by decide)).2⟩

/-! ## Helper lemmas: tokenization -/

theorem wordsAux_sound (p : Char → Prop) :
    ∀ (l cur : List Char), (∀ c ∈ cur, p c) →
      (∀ c ∈ l, c.isWhitespace = false → p c) →
      ∀ w ∈ wordsAux l cur, ∀ c ∈ w, p c := by
  intro l
  induction l with
  | nil =>
    intro cur hcur _ w hw c hc
    unfold wordsAux at hw
    split at hw
    · cases hw
    · rcases List.mem_singleton.mp hw with rfl
      exact hcur c (List.mem_reverse.mp hc)
  | cons a as ih =>
    intro cur hcur hl w hw c hc
    unfold wordsAux at hw
    by_cases ha : a.isWhitespace = true
    · rw [if_pos ha] at hw
      have has : ∀ c ∈ as, c.isWhitespace = false → p c := by
        intro c hmem hws
        exact hl c (List.mem_cons_of_mem a hmem) hws
      split at hw
      · exact ih [] (by intro c hmem; cases hmem) has w hw c hc
      · rcases List.mem_cons.mp hw with rfl | hw2
        · exact hcur c (List.mem_reverse.mp hc)
        · exact ih [] (by intro c hmem; cases hmem) has w hw2 c hc
    · rw [if_neg ha] at hw
      refine ih (a :: cur) ?_ ?_ w hw c hc
      · intro c hmem
        rcases List.mem_cons.mp hmem with rfl | hmem2
        · exact hl c (List.mem_cons_self c as) (by simpa using ha)
        · exact hcur c hmem2
      · intro c hmem hws
        exact hl c (List.mem_cons_of_mem a hmem) hws

theorem fallback_tokens (q : String) :
    ∀ w ∈ fallbackExtract q, 3 < w.length ∧ ∀ c ∈ w.data, isWordChar c = true := by
  intro w hw
  unfold fallbackExtract at hw
  rw [List.mem_filter] at hw
  obtain ⟨hmem, hlen⟩ := hw
  refine ⟨by simpa using hlen, ?_⟩
  unfold pySplit at hmem
  rw [List.mem_map] at hmem
  obtain ⟨l, hl, rfl⟩ := hmem
  intro c hc
  refine wordsAux_sound (fun c => isWordChar c = true) _ [] (by intro c hmem; cases hmem)
    ?_ l hl c hc
  intro c hmem hws
  rw [List.mem_filter] at hmem
  obtain ⟨_, hcls⟩ := hmem
  have hcls2 : isWordChar c = true ∨ c.isWhitespace = true := by
    have := hcls
    simp only [Bool.or_eq_true] at this
    simpa using this
  rcases hcls2 with h | h
  · exact h
  · rw [hws] at h; cases h

/-- C6: if the language-model call during keyword extraction fails, the
error is recovered locally — `extract` still returns a plain keyword list,
namely the deterministic fallback: the question with every
non-word/non-whitespace character stripped, split on whitespace, keeping
exactly the tokens longer than 3 characters (each returned token is longer
than 3 characters and consists of word characters only). -/
theorem extract_fallback_C6 (e : String) (q : String) :
    extractSearchIntents (.error e) q = fallbackExtract q
    ∧ ∀ w ∈ extractSearchIntents (.error e) q,
        3 < w.length ∧ ∀ c ∈ w.data, isWordChar c = true := by
  refine ⟨rfl, ?_⟩
  intro w hw
  exact fallback_tokens q w hw

theorem extract_fallback_C6_witness :
    ("hello" ∈ extractSearchIntents (.error "timeout") "hello, to the world")
    ∧ 3 < ("hello" : String).length :=
  ⟨by decide,
   ((extract_fallback_C6 "timeout" "hello, to the world").2 "hello" (by decide)).1⟩

/-- C7 counterexample: with a failed model call, the fallback extractor
returns the raw token list without deduplication, so the result for the
question `"aaaa aaaa"` holds the keyword `"aaaa"` twice. -/
theorem extract_nodup_C7_cex :
    ¬ ((extractSearchIntents (.error "quota") "aaaa aaaa").Nodup) := by
  decide

/-- C7 (amended): the model-backed keyword result contains no duplicates;
the deterministic fallback path, however, may repeat tokens. -/
theorem extract_nodup_C7 (ks : List String) (q : String) :
    (extractSearchIntents (.ok ks) q).Nodup := by
  unfold extractSearchIntents
  exact List.nodup_dedup _

/-- C10: the web-search collaborator never raises — every transport
failure is caught and the empty string is returned, exactly as for an
empty result list — so the tool-content computation never reaches its
inline error branch: it always yields the ok-branch value (the summary, or
`"No results found."` for a falsy one), making hard failure
indistinguishable from no results. -/
theorem websearch_total_C10 (ddgs : String → Except String (List SearchResult))
    (q : String) :
    webSearchSearch ddgs q = .ok (webSearchValue ddgs q)
    ∧ ((ddgs q).isOk = false → webSearchValue ddgs q = "")
    ∧ (ddgs q = .ok [] → webSearchValue ddgs q = "")
    ∧ toolContent ddgs q =
        (if webSearchValue ddgs q = "" then "No results found."
         else webSearchValue ddgs q) := by
  have h1 : webSearchSearch ddgs q = .ok (webSearchValue ddgs q) := by
    unfold webSearchSearch webSearchValue
    cases ddgs q <;> rfl
  refine ⟨h1, ?_, ?_, ?_⟩
  · intro h
    unfold webSearchValue
    cases hq : ddgs q with
    | error e => rfl
    | ok r => rw [hq] at h; simp [Except.isOk, Except.toBool] at h
  · intro h
    unfold webSearchValue
    rw [h]
    rfl
  · unfold toolContent
    rw [h1]

theorem websearch_total_C10_witness :
    (ddgsFail "q").isOk = false
    ∧ webSearchValue ddgsFail "q" = ""
    ∧ toolContent ddgsFail "q" = "No results found." :=
  ⟨rfl, (websearch_total_C10 ddgsFail "q").2.1 rfl, by
    rw [(websearch_total_C10 ddgsFail "q").2.2.2]
    rfl⟩

/-! ## Helper lemmas: tool-call loop -/

theorem execToolCalls_eq (ddgs : String → Except String (List SearchResult))
    (tcs : List ToolCall) :
    ∀ msgs : List Message,
      execToolCalls ddgs msgs tcs =
        msgs ++ (tcs.filter (fun tc => tc.fname = "web_search")).map
          (fun tc => toolResultMsg tc (toolContent ddgs tc.query)) := by
  induction tcs with
  | nil => intro msgs; simp [execToolCalls]
  | cons tc tcs ih =>
    intro msgs
    have hstep : execToolCalls ddgs msgs (tc :: tcs) =
        execToolCalls ddgs
          (if tc.fname = "web_search" then
            msgs ++ [toolResultMsg tc (toolContent ddgs tc.query)]
          else msgs) tcs := by
      unfold execToolCalls
      rw [List.foldl_cons]
    rw [hstep]
    by_cases h : tc.fname = "web_search"
    · rw [if_pos h, ih, List.filter_cons_of_pos (by simp [h]), List.map_cons,
        List.append_assoc, List.singleton_append]
    · rw [if_neg h, ih, List.filter_cons_of_neg (by simp [h])]

theorem runToolSearch_source (llm : List (Except String LLMResponse))
    (ddgs : String → Except String (List SearchResult))
    (msgs : List Message) (out : ToolSearchOut)
    (h : (runToolSearch llm ddgs msgs).1 = .ok out) :
    out.source = "Web Search" ∨ out.source = "AI Knowledge" := by
  unfold runToolSearch at h
  cases llm with
  | nil => simp [takeLLM] at h
  | cons r rest =>
    cases r with
    | error e => simp [takeLLM] at h
    | ok resp =>
      simp only [takeLLM] at h
      by_cases he : resp.tool_calls.isEmpty
      · rw [if_pos he] at h
        injection h with h'
        right; rw [← h']
      · rw [if_neg he] at h
        cases rest with
        | nil => simp [takeLLM] at h
        | cons r2 rest2 =>
          cases r2 with
          | error e2 => simp [takeLLM] at h
          | ok final =>
            simp only [takeLLM] at h
            injection h with h'
            left; rw [← h']

/-- C8: in the tool-calling answerer, when the first model response
invokes capabilities, each `web_search` invocation appends exactly one
tool-result message tagged with its call identifier and carrying the
summary-or-error content (search failures become content, the run still
succeeds for any transport); when the response contains no invocation, its
text is returned verbatim with provenance AIKnowledge. -/
theorem tool_loop_C8 (llm : List (Except String LLMResponse))
    (ddgs : String → Except String (List SearchResult))
    (messages : List Message) (resp : LLMResponse)
    (rest : List (Except String LLMResponse))
    (h : llm = .ok resp :: rest) :
    (resp.tool_calls = [] →
      (runToolSearch llm ddgs messages).1 =
        .ok ⟨resp.content, "AI Knowledge", messages⟩)
    ∧ (∀ final rest2, rest = .ok final :: rest2 → resp.tool_calls ≠ [] →
        (runToolSearch llm ddgs messages).1 =
          .ok ⟨final.content, "Web Search",
            (messages ++ [assistantMsg resp]) ++
              (resp.tool_calls.filter (fun tc => tc.fname = "web_search")).map
                (fun tc => toolResultMsg tc (toolContent ddgs tc.query))⟩) := by
  subst h
  constructor
  · intro h0
    unfold runToolSearch
    simp only [takeLLM]
    rw [if_pos (by simp [h0])]
  · intro final rest2 hrest hne
    subst hrest
    unfold runToolSearch
    simp only [takeLLM]
    rw [if_neg (by simpa using hne)]
    simp only [takeLLM]
    rw [execToolCalls_eq]

theorem tool_loop_C8_witness :
    (runToolSearch [.ok respW, .ok finalW] ddgsOne [sysMsg]).1 =
      .ok ⟨finalW.content, "Web Search",
        (([sysMsg] ++ [assistantMsg respW]) ++
          (respW.tool_calls.filter (fun tc => tc.fname = "web_search")).map
            (fun tc => toolResultMsg tc (toolContent ddgsOne tc.query)))⟩ :=
  (tool_loop_C8 [.ok respW, .ok finalW] ddgsOne [sysMsg] respW [.ok finalW]
    rfl).2 finalW [] rfl (by decide)

/-- C3: with `forceWebSearch = true`, whatever `search` returns carries an
empty context graph (no nodes and no edges), regardless of the graph
store's contents for the question. -/
theorem forced_web_C3 (g : GraphStore) (extractOr : Except String (List String))
    (llm : List (Except String LLMResponse))
    (ddgs : String → Except String (List SearchResult))
    (q t : String) (gd : GraphData) (s : String)
    (h : searchRun g extractOr llm ddgs q true = .ok (t, gd, s)) :
    gd = emptyGraph := by
  unfold searchRun at h
  rw [if_pos rfl] at h
  split at h
  · cases h
  · injection h with h'
    have h2 := congrArg (fun p : String × GraphData × String => p.2.1) h'
    simpa using h2.symm

theorem forced_web_C3_witness :
    searchRun gWit (.ok ["Loop"]) [.ok ⟨"direct", []⟩] ddgsFail "q" true =
      .ok ("direct", emptyGraph, "AI Knowledge")
    ∧ emptyGraph = emptyGraph :=
  ⟨by decide,
   forced_web_C3 gWit (.ok ["Loop"]) [.ok ⟨"direct", []⟩] ddgsFail "q" "direct"
     emptyGraph "AI Knowledge" (by decide)⟩

/-- C4: every result `search` returns carries one of exactly the four
provenance tags (spelled `"GraphRAG"`, `"Web Search"`, `"AI Knowledge"`,
`"Error"` in the code, the representations of the spec enumeration
GraphRAG / WebSearch / AIKnowledge / Error). -/
theorem provenance_enum_C4 (g : GraphStore) (extractOr : Except String (List String))
    (llm : List (Except String LLMResponse))
    (ddgs : String → Except String (List SearchResult))
    (q : String) (force : Bool) (t : String) (gd : GraphData) (s : String)
    (h : searchRun g extractOr llm ddgs q force = .ok (t, gd, s)) :
    s = "GraphRAG" ∨ s = "Web Search" ∨ s = "AI Knowledge" ∨ s = "Error" := by
  unfold searchRun at h
  split at h
  · -- forced branch
    split at h
    · cases h
    · next out heq =>
      injection h with h'
      have hs : s = out.source := by
        have := congrArg (fun p => p.2.2) h'
        simpa using this.symm
      rcases runToolSearch_source _ _ _ _ heq with h1 | h1
      · right; left; rw [hs]; exact h1
      · right; right; left; rw [hs]; exact h1
  · split at h
    · -- graph-found branch
      split at h
      · -- GraphDirect model call failed
        injection h with h'
        right; right; right
        have := congrArg (fun p => p.2.2) h'
        simpa using this.symm
      · -- GraphDirect model call succeeded
        split at h
        · -- immediate tool invocation
          split at h
          · injection h with h'
            right; right; right
            have := congrArg (fun p => p.2.2) h'
            simpa using this.symm
          · next out heq =>
            injection h with h'
            have hs : s = out.source := by
              have := congrArg (fun p => p.2.2) h'
              simpa using this.symm
            rcases runToolSearch_source _ _ _ _ heq with h1 | h1
            · right; left; rw [hs]; exact h1
            · right; right; left; rw [hs]; exact h1
        · split at h
          · -- refusal detected
            split at h
            · injection h with h'
              right; right; right
              have := congrArg (fun p => p.2.2) h'
              simpa using this.symm
            · next out heq =>
              injection h with h'
              have hs : s = out.source := by
                have := congrArg (fun p => p.2.2) h'
                simpa using this.symm
              rcases runToolSearch_source _ _ _ _ heq with h1 | h1
              · right; left; rw [hs]; exact h1
              · right; right; left; rw [hs]; exact h1
          · -- plain GraphRAG answer
            injection h with h'
            left
            have := congrArg (fun p => p.2.2) h'
            simpa using this.symm
    · -- empty-graph fallback
      split at h
      · cases h
      · next out heq =>
        injection h with h'
        have hs : s = out.source := by
          have := congrArg (fun p => p.2.2) h'
          simpa using this.symm
        rcases runToolSearch_source _ _ _ _ heq with h1 | h1
        · right; left; rw [hs]; exact h1
        · right; right; left; rw [hs]; exact h1

theorem provenance_enum_C4_witness :
    searchRun gWit (.ok ["Loop"]) [.ok ⟨"an answer", []⟩] ddgsFail "q" false =
      .ok ("an answer", (getRelevantContext gWit (extractSearchIntents (.ok ["Loop"]) "q")).2, "GraphRAG")
    ∧ (("GraphRAG" : String) = "GraphRAG" ∨ ("GraphRAG" : String) = "Web Search"
        ∨ ("GraphRAG" : String) = "AI Knowledge" ∨ ("GraphRAG" : String) = "Error") :=
  ⟨by decide,
   provenance_enum_C4 gWit (.ok ["Loop"]) [.ok ⟨"an answer", []⟩] ddgsFail "q" false
     "an answer" (getRelevantContext gWit (extractSearchIntents (.ok ["Loop"]) "q")).2
     "GraphRAG" (by decide)⟩

/-- C5 counterexample: an internal fault can escape the core boundary —
with an empty graph store, a failure of the delegated completion call in
the empty-graph fallback propagates out of `search` as an exception
instead of being caught. -/
theorem error_path_C5_cex :
    searchRun ⟨[], []⟩ (.ok ["zzzz"]) [.error "api down"] ddgsFail "q" false
      = .error "api down" := by
  decide

/-- C5 (amended): within the graph-found branch no fault escapes — the
result is always a well-formed triple — and a failure of the GraphDirect
language-model call is caught and reported as the fixed error message with
provenance Error, carrying the already-retrieved bundle; language-model
failures in the forced-web and empty-graph delegations, by contrast,
propagate as exceptions. -/
theorem error_path_C5 (g : GraphStore) (extractOr : Except String (List String))
    (llm : List (Except String LLMResponse))
    (ddgs : String → Except String (List SearchResult)) (q : String)
    (h : (((getRelevantContext g (extractSearchIntents extractOr q)).2).nodes).isEmpty = false) :
    (searchRun g extractOr llm ddgs q false).isOk = true
    ∧ ∀ e rest, llm = .error e :: rest →
        searchRun g extractOr llm ddgs q false =
          .ok ("Lỗi xử lý.",
            (getRelevantContext g (extractSearchIntents extractOr q)).2, "Error") := by
  constructor
  · unfold searchRun
    rw [if_neg (by decide), if_pos (by rw [h]; rfl)]
    split
    · rfl
    · split
      · split <;> rfl
      · split
        · split <;> rfl
        · rfl
  · intro e rest hllm
    subst hllm
    unfold searchRun
    rw [if_neg (by decide), if_pos (by rw [h]; rfl)]
    rfl

theorem error_path_C5_witness :
    (((getRelevantContext gWit (extractSearchIntents (.ok ["Loop"]) "q")).2).nodes).isEmpty = false
    ∧ searchRun gWit (.ok ["Loop"]) [.error "api down"] ddgsFail "q" false =
        .ok ("Lỗi xử lý.",
          (getRelevantContext gWit (extractSearchIntents (.ok ["Loop"]) "q")).2, "Error") :=
  ⟨by decide,
   (error_path_C5 gWit (.ok ["Loop"]) [.error "api down"] ddgsFail "q" (by decide)).2
     "api down" [] rfl⟩

/-- C2 counterexample: a GraphDirect response carrying a refusal marker
with a non-empty original bundle can come back with provenance
AIKnowledge, not WebSearch — the delegated answerer chose not to invoke
the web tool, and `search` forwards its provenance unchanged. -/
theorem refusal_escalation_C2_cex :
    refusalIn "Xin lỗi, không tìm thấy" = true
    ∧ (((getRelevantContext gWit (extractSearchIntents (.ok ["Loop"]) "q")).2).nodes).isEmpty = false
    ∧ searchRun gWit (.ok ["Loop"])
        [.ok ⟨"Xin lỗi, không tìm thấy", []⟩, .ok ⟨"answer from training", []⟩]
        ddgsFail "q" false
      = .ok ("answer from training", emptyGraph, "AI Knowledge") := by
  refine ⟨by decide, by decide, by decide⟩

/-- C2 (amended): in the graph-found path, when the response carries a
refusal marker (and no tool invocation) and the delegated answerer
succeeds, `search` returns the delegate's text and provenance — WebSearch
or AIKnowledge, never GraphRAG — with an empty node/edge bundle. -/
theorem refusal_escalation_C2 (g : GraphStore) (extractOr : Except String (List String))
    (llm : List (Except String LLMResponse))
    (ddgs : String → Except String (List SearchResult)) (q : String)
    (msg : LLMResponse) (rest : List (Except String LLMResponse)) (out : ToolSearchOut)
    (hnodes : (((getRelevantContext g (extractSearchIntents extractOr q)).2).nodes).isEmpty = false)
    (hllm : llm = .ok msg :: rest)
    (hnotool : msg.tool_calls = [])
    (hrefusal : refusalIn msg.content = true)
    (hdelegate : (runToolSearch rest ddgs
        (([sysMsg] ++ [graphContextMsg
            (getRelevantContext g (extractSearchIntents extractOr q)).1 q]) ++
          [assistantMsg msg,
           userMsg "The graph didnt have it. Please search the web."])).1 = .ok out) :
    searchRun g extractOr llm ddgs q false = .ok (out.text, emptyGraph, out.source)
    ∧ out.source ≠ "GraphRAG"
    ∧ (out.source = "Web Search" ∨ out.source = "AI Knowledge") := by
  have hsrc := runToolSearch_source _ _ _ _ hdelegate
  refine ⟨?_, ?_, hsrc⟩
  · subst hllm
    unfold searchRun
    rw [if_neg (by decide), if_pos (by rw [hnodes]; rfl)]
    have hne : ¬ ((!msg.tool_calls.isEmpty) = true) := by
      rw [hnotool]; decide
    simp only [takeLLM]
    rw [if_neg hne, if_pos hrefusal, hdelegate]
  · rcases hsrc with h1 | h1 <;> rw [h1] <;> decide

set_option maxRecDepth 100000 in
theorem refusal_escalation_C2_witness :
    searchRun gWit (.ok ["Loop"])
        [.ok ⟨"xin lỗi", []⟩, .ok ⟨"answer from training", []⟩] ddgsFail "q" false
      = .ok ("answer from training", emptyGraph, "AI Knowledge")
    ∧ ("AI Knowledge" : String) ≠ "GraphRAG" := by
  have h := refusal_escalation_C2 gWit (.ok ["Loop"])
      [.ok ⟨"xin lỗi", []⟩, .ok ⟨"answer from training", []⟩]
      ddgsFail "q" ⟨"xin lỗi", []⟩ [.ok ⟨"answer from training", []⟩]
      ⟨"answer from training", "AI Knowledge", refusalTailMsgs⟩
      (by decide) rfl rfl (by decide) (by decide)
  exact ⟨h.1, h.2.1⟩

end ScratchKG
